import Mathlib

set_option maxHeartbeats 1000000

/-!
Shallow embedding of `package/system/mtd/src/linksys_bootcount.c` (function
`mtd_resetbc`), the boot-counter reset core for Linksys devices.

The flash contents and the malloc'd scratch page are modelled as byte maps
`Nat → Nat` (each value a byte, reduced mod 256 when read as a 32-bit field).
The external collaborator (the MTD device) is a `Device` record carrying the
geometry answer of the `MEMGETINFO` ioctl, the flash image, the success of
`malloc`, the initial (indeterminate) contents of the malloc'd page, and the
return values of the `MEMERASE` ioctl and of `pwrite`.

`mtd_resetbc` returns a `RunResult` recording the C function's `retval`, the
final flash image, the list of `MEMERASE` calls issued (start, length), the
list of `pwrite` calls issued (offset, length), the number of `sync()` calls,
whether the cleanup's `if (page)` test read the `page` variable while it was
still uninitialized (the C code declares `char *page;` without an initializer
and the `goto out` after a failed `MEMGETINFO` reaches the test before the
`malloc` assignment), and whether `free(page)` was executed.
-/

/-- `BOOTCOUNT_MAGIC` from the C source. -/
def BOOTCOUNT_MAGIC : Nat := 0x20110811

/-- The all-ones 32-bit pattern the code compares magic fields against. -/
def ERASED_MAGIC : Nat := 0xffffffff

/-- The fields of `struct mtd_info_user` that `mtd_resetbc` uses. -/
structure MtdInfo where
  size : Nat
  erasesize : Nat
  writesize : Nat

/-- Read a little-endian 32-bit value from a byte map. -/
def readU32 (m : Nat → Nat) (off : Nat) : Nat :=
  m off % 256 + 256 * (m (off + 1) % 256) + 65536 * (m (off + 2) % 256) +
    16777216 * (m (off + 3) % 256)

/-- Store a little-endian 32-bit value into a byte map. -/
def writeU32 (m : Nat → Nat) (off v : Nat) : Nat → Nat := fun b =>
  if b = off then v % 256
  else if b = off + 1 then v / 256 % 256
  else if b = off + 2 then v / 65536 % 256
  else if b = off + 3 then v / 16777216 % 256
  else m b

/-- Effect of a successful `MEMERASE` ioctl: the range becomes `0xff`. -/
def eraseBytes (m : Nat → Nat) (start len : Nat) : Nat → Nat := fun b =>
  if start ≤ b ∧ b < start + len then 0xff else m b

/-- Effect of `pwrite(fd, src, n, off)` transferring `n` bytes. -/
def writeBytes (dst : Nat → Nat) (off : Nat) (src : Nat → Nat) (n : Nat) : Nat → Nat := fun b =>
  if off ≤ b ∧ b < off + n then src (b - off) else dst b

/-- Effect of `pread(fd, curr, sizeof(*curr), i * bc_offset_increment)` where
`curr = page + c * bc_offset_increment`: exactly `sizeof(struct bootcounter)
= 12` bytes of slot `i` are copied into the scratch page at slot position
`c`. -/
def preadSlot (flash buf : Nat → Nat) (inc c i : Nat) : Nat → Nat := fun b =>
  if c * inc ≤ b ∧ b < c * inc + 12 then flash (i * inc + (b - c * inc)) else buf b

/-- The mutable locals of the scan loop in `mtd_resetbc` (lines 133-157):
`page_len`, `erase_start`, `last_count`, the slot position that `curr`
points at inside the page, and the scratch page contents. -/
structure ScanState where
  page_len : Nat
  erase_start : Nat
  last_count : Nat
  curr_slot : Nat
  buf : Nat → Nat

/-- Outcome of the scan loop: either the `retval = -3` abort at the byte
offset logged by the code, or loop exit at slot `i` (by `break` on an
erased magic when `i < num_bc`, or by running out of slots when
`i = num_bc`). -/
inductive ScanResult where
  | corrupt : Nat → ScanResult
  | stopped : Nat → ScanState → ScanResult

/-- Index of the slot at which the scan stopped, if it did not abort. -/
def ScanResult.stopIndex : ScanResult → Option Nat
  | ScanResult.corrupt _ => Option.none
  | ScanResult.stopped i _ => Option.some i

/-- The scan loop of `mtd_resetbc` (`for (i = 0; i < num_bc; i++)`), with
`fuel` the number of remaining iterations (`num_bc - i`).  Each iteration
sets `curr` to slot `page_len` of the page, preads 12 bytes of slot `i`
there, increments `page_len` (wrapping and advancing `erase_start` when a
full erase unit has been buffered), then tests `curr->magic`. -/
def scanAux (flash : Nat → Nat) (inc esz P : Nat) : Nat → Nat → ScanState → ScanResult
  | 0, i, s => ScanResult.stopped i s
  | fuel + 1, i, s =>
    let c := s.page_len
    let buf1 := preadSlot flash s.buf inc c i
    let pl1 := if c + 1 ≥ P then 0 else c + 1
    let es1 := if c + 1 ≥ P then s.erase_start + esz else s.erase_start
    let m := readU32 buf1 (c * inc)
    if m ≠ BOOTCOUNT_MAGIC ∧ m ≠ ERASED_MAGIC then ScanResult.corrupt (i * inc)
    else if m = ERASED_MAGIC then ScanResult.stopped i ⟨pl1, es1, s.last_count, c, buf1⟩
    else scanAux flash inc esz P fuel (i + 1) ⟨pl1, es1, readU32 buf1 (c * inc + 4), c, buf1⟩

/-- The external MTD device as `mtd_resetbc` sees it. -/
structure Device where
  getinfo : Option MtdInfo
  flash : Nat → Nat
  mallocOk : Bool
  bufInit : Nat → Nat
  eraseRet : Nat → Nat → Int
  pwriteRet : Nat → Int

/-- Observable outcome of one `mtd_resetbc` run. -/
structure RunResult where
  retval : Int
  flash : Nat → Nat
  erases : List (Nat × Nat)
  writes : List (Nat × Nat)
  syncs : Nat
  pageReadUninit : Bool
  freed : Bool

/-- `bc_offset_increment` (lines 105-113): the record stride, floored at
`BC_OFFSET_INCREMENT_MIN = 16`. -/
def bcOffsetIncrement (info : MtdInfo) : Nat :=
  if info.writesize < 16 then 16 else info.writesize

/-- `erase_size` (lines 115-122): the erase unit, floored at the stride. -/
def eraseSizeOf (info : MtdInfo) : Nat :=
  if info.erasesize < bcOffsetIncrement info then bcOffsetIncrement info else info.erasesize

/-- `page_num_bc = erase_size / bc_offset_increment` (line 124). -/
def pageNumBc (info : MtdInfo) : Nat := eraseSizeOf info / bcOffsetIncrement info

/-- `num_bc = mtd_info.size / bc_offset_increment` (line 131). -/
def numBc (info : MtdInfo) : Nat := info.size / bcOffsetIncrement info

/-- Lines 202-206: `memset(curr, 0xff, bc_offset_increment)` followed by
storing `magic`, `count = 0` and `checksum` through `curr`, where `curr`
is slot `c` of the scratch page. -/
def mkRecord (buf : Nat → Nat) (inc c : Nat) : Nat → Nat :=
  writeU32 (writeU32 (writeU32
    (fun b => if c * inc ≤ b ∧ b < c * inc + inc then 0xff else buf b)
    (c * inc) BOOTCOUNT_MAGIC) (c * inc + 4) 0) (c * inc + 8) BOOTCOUNT_MAGIC

/-- Lines 202-224: build the zero record in the page and
`pwrite(fd, page, page_len * bc_offset_increment, erase_start)`; on a
negative return `retval = -6`, otherwise `sync()` and `retval = 0`.  A
non-negative short return transfers only the reported number of bytes. -/
def writePhase (d : Device) (info : MtdInfo) (flash1 : Nat → Nat) (ers : List (Nat × Nat))
    (buf : Nat → Nat) (cslot plen estart : Nat) : RunResult :=
  let inc := bcOffsetIncrement info
  let buf2 := mkRecord buf inc cslot
  let len := plen * inc
  if d.pwriteRet len < 0 then
    { retval := -6, flash := flash1, erases := ers, writes := [(estart, len)],
      syncs := 0, pageReadUninit := false, freed := true }
  else
    { retval := 0, flash := writeBytes flash1 estart buf2 (min (d.pwriteRet len).toNat len),
      erases := ers, writes := [(estart, len)], syncs := 1, pageReadUninit := false,
      freed := true }

/-- The scan of `mtd_resetbc` run from its initial state (`page_len = 0`,
`erase_start = 0`, `last_count = 0`, page fresh from `malloc`). -/
def scanOf (d : Device) (info : MtdInfo) : ScanResult :=
  scanAux d.flash (bcOffsetIncrement info) (eraseSizeOf info) (pageNumBc info) (numBc info) 0
    ⟨0, 0, 0, 0, d.bufInit⟩

/-- The whole of `mtd_resetbc` (lines 73-232). -/
def mtd_resetbc (d : Device) : RunResult :=
  match d.getinfo with
  | Option.none =>
    { retval := -1, flash := d.flash, erases := [], writes := [], syncs := 0,
      pageReadUninit := true, freed := false }
  | Option.some info =>
    if d.mallocOk then
      match scanOf d info with
      | ScanResult.corrupt _ =>
        { retval := -3, flash := d.flash, erases := [], writes := [], syncs := 0,
          pageReadUninit := false, freed := true }
      | ScanResult.stopped i s =>
        if s.last_count = 0 then
          { retval := 0, flash := d.flash, erases := [], writes := [], syncs := 0,
            pageReadUninit := false, freed := true }
        else if i = numBc info then
          if d.eraseRet 0 info.size < 0 then
            { retval := -4, flash := d.flash, erases := [(0, info.size)], writes := [],
              syncs := 0, pageReadUninit := false, freed := true }
          else
            writePhase d info (eraseBytes d.flash 0 info.size) [(0, info.size)] s.buf 0 1 0
        else
          if d.eraseRet s.erase_start (eraseSizeOf info) < 0 then
            { retval := -5, flash := d.flash, erases := [(s.erase_start, eraseSizeOf info)],
              writes := [], syncs := 0, pageReadUninit := false, freed := true }
          else
            writePhase d info (eraseBytes d.flash s.erase_start (eraseSizeOf info))
              [(s.erase_start, eraseSizeOf info)] s.buf s.curr_slot s.page_len s.erase_start
    else
      { retval := -2, flash := d.flash, erases := [], writes := [], syncs := 0,
        pageReadUninit := false, freed := false }

/-- The 32-bit magic field of slot `i` of a flash image. -/
def slotMagic (flash : Nat → Nat) (inc i : Nat) : Nat := readU32 flash (i * inc)

/-- The 32-bit count field of slot `i` of a flash image. -/
def slotCount (flash : Nat → Nat) (inc i : Nat) : Nat := readU32 flash (i * inc + 4)

/-- A device whose every collaborator call succeeds and whose `pwrite`
transfers everything it is asked to write. -/
def goodDevice (info : MtdInfo) (flash : Nat → Nat) : Device :=
  { getinfo := Option.some info, flash := flash, mallocOk := true,
    bufInit := fun _ => 0, eraseRet := fun _ _ => 0,
    pwriteRet := fun len => (len : Int) }

/-! ### Byte-map helper lemmas -/

theorem preadSlot_in (flash buf : Nat → Nat) (inc c i t : Nat) (ht : t < 12) :
    preadSlot flash buf inc c i (c * inc + t) = flash (i * inc + t) := by
  unfold preadSlot
  have h1 : c * inc ≤ c * inc + t := Nat.le_add_right _ _
  have h2 : c * inc + t < c * inc + 12 := by omega
  rw [if_pos ⟨h1, h2⟩, Nat.add_sub_cancel_left]

theorem preadSlot_out (flash buf : Nat → Nat) (inc c i b : Nat)
    (hb : b < c * inc ∨ c * inc + 12 ≤ b) :
    preadSlot flash buf inc c i b = buf b := by
  unfold preadSlot
  rw [if_neg]
  omega

theorem preadSlot_magic (flash buf : Nat → Nat) (inc c i : Nat) :
    readU32 (preadSlot flash buf inc c i) (c * inc) = readU32 flash (i * inc) := by
  have e0 : preadSlot flash buf inc c i (c * inc) = flash (i * inc) := by
    have h := preadSlot_in flash buf inc c i 0 (by omega)
    simpa using h
  have e1 := preadSlot_in flash buf inc c i 1 (by omega)
  have e2 := preadSlot_in flash buf inc c i 2 (by omega)
  have e3 := preadSlot_in flash buf inc c i 3 (by omega)
  unfold readU32
  rw [e0, e1, e2, e3]

theorem preadSlot_count (flash buf : Nat → Nat) (inc c i : Nat) :
    readU32 (preadSlot flash buf inc c i) (c * inc + 4) = readU32 flash (i * inc + 4) := by
  have e4 := preadSlot_in flash buf inc c i 4 (by omega)
  have e5 := preadSlot_in flash buf inc c i 5 (by omega)
  have e6 := preadSlot_in flash buf inc c i 6 (by omega)
  have e7 := preadSlot_in flash buf inc c i 7 (by omega)
  unfold readU32
  have a5 : c * inc + 4 + 1 = c * inc + 5 := by omega
  have a6 : c * inc + 4 + 2 = c * inc + 6 := by omega
  have a7 : c * inc + 4 + 3 = c * inc + 7 := by omega
  have b5 : i * inc + 4 + 1 = i * inc + 5 := by omega
  have b6 : i * inc + 4 + 2 = i * inc + 6 := by omega
  have b7 : i * inc + 4 + 3 = i * inc + 7 := by omega
  rw [a5, a6, a7, e4, e5, e6, e7, b5, b6, b7]

theorem writeU32_ne (m : Nat → Nat) (off v b : Nat) (h : b < off ∨ off + 4 ≤ b) :
    writeU32 m off v b = m b := by
  unfold writeU32
  rw [if_neg (by omega), if_neg (by omega), if_neg (by omega), if_neg (by omega)]

theorem readU32_eq_of (f g : Nat → Nat) (a b : Nat)
    (h : ∀ u, u < 4 → f (a + u) = g (b + u)) : readU32 f a = readU32 g b := by
  have h0 := h 0 (by omega)
  have h1 := h 1 (by omega)
  have h2 := h 2 (by omega)
  have h3 := h 3 (by omega)
  simp only [Nat.add_zero] at h0
  unfold readU32
  rw [h0, h1, h2, h3]

theorem readU32_writeU32 (m : Nat → Nat) (off v : Nat) :
    readU32 (writeU32 m off v) off = v % 4294967296 := by
  unfold readU32 writeU32
  rw [if_pos rfl]
  rw [if_neg (by omega), if_pos rfl]
  rw [if_neg (by omega), if_neg (by omega), if_pos rfl]
  rw [if_neg (by omega), if_neg (by omega), if_neg (by omega), if_pos rfl]
  omega

theorem writeBytes_in (dst src : Nat → Nat) (off n t : Nat) (h : t < n) :
    writeBytes dst off src n (off + t) = src t := by
  unfold writeBytes
  rw [if_pos ⟨Nat.le_add_right _ _, by omega⟩, Nat.add_sub_cancel_left]

theorem writeBytes_out (dst src : Nat → Nat) (off n b : Nat)
    (h : b < off ∨ off + n ≤ b) : writeBytes dst off src n b = dst b := by
  unfold writeBytes
  rw [if_neg (by omega)]

theorem slot_pos_lt (j r inc t : Nat) (hj : j < r) (ht : t < inc) :
    j * inc + t < r * inc := by
  have h1 : j * inc + t < (j + 1) * inc := by
    rw [Nat.succ_mul]
    omega
  have h2 : (j + 1) * inc ≤ r * inc := Nat.mul_le_mul_right inc hj
  omega

theorem slot_pos_mod (r t inc : Nat) (ht : t < inc) : (r * inc + t) % inc = t := by
  rw [Nat.mul_comm, Nat.mul_add_mod, Nat.mod_eq_of_lt ht]

theorem mkRecord_lt (buf : Nat → Nat) (inc c b : Nat) (hb : b < c * inc) :
    mkRecord buf inc c b = buf b := by
  unfold mkRecord
  rw [writeU32_ne _ _ _ _ (Or.inl (by omega)), writeU32_ne _ _ _ _ (Or.inl (by omega)),
    writeU32_ne _ _ _ _ (Or.inl hb), if_neg (by omega)]

theorem mkRecord_magic (buf : Nat → Nat) (inc c : Nat) :
    readU32 (mkRecord buf inc c) (c * inc) = BOOTCOUNT_MAGIC := by
  unfold mkRecord
  have h1 : readU32 (writeU32 (writeU32 (writeU32
      (fun b => if c * inc ≤ b ∧ b < c * inc + inc then 0xff else buf b)
      (c * inc) BOOTCOUNT_MAGIC) (c * inc + 4) 0) (c * inc + 8) BOOTCOUNT_MAGIC) (c * inc) =
      readU32 (writeU32 (fun b => if c * inc ≤ b ∧ b < c * inc + inc then 0xff else buf b)
      (c * inc) BOOTCOUNT_MAGIC) (c * inc) := by
    apply readU32_eq_of
    intro u hu
    rw [writeU32_ne _ _ _ _ (Or.inl (by omega)), writeU32_ne _ _ _ _ (Or.inl (by omega))]
  rw [h1, readU32_writeU32]
  decide

theorem mkRecord_count (buf : Nat → Nat) (inc c : Nat) :
    readU32 (mkRecord buf inc c) (c * inc + 4) = 0 := by
  unfold mkRecord
  have h1 : readU32 (writeU32 (writeU32 (writeU32
      (fun b => if c * inc ≤ b ∧ b < c * inc + inc then 0xff else buf b)
      (c * inc) BOOTCOUNT_MAGIC) (c * inc + 4) 0) (c * inc + 8) BOOTCOUNT_MAGIC)
      (c * inc + 4) =
      readU32 (writeU32 (writeU32
      (fun b => if c * inc ≤ b ∧ b < c * inc + inc then 0xff else buf b)
      (c * inc) BOOTCOUNT_MAGIC) (c * inc + 4) 0) (c * inc + 4) := by
    apply readU32_eq_of
    intro u hu
    rw [writeU32_ne _ _ _ _ (Or.inl (by omega))]
  rw [h1, readU32_writeU32]

/-! ### Scan-loop lemmas -/

theorem magic_ne_erased : BOOTCOUNT_MAGIC ≠ ERASED_MAGIC := by decide

theorem qr_unique (P q r q' r' n : Nat) (hP : 0 < P) (h1 : P * q + r = n) (h2 : r < P)
    (h3 : P * q' + r' = n) (h4 : r' < P) : q = q' ∧ r = r' := by
  have e1 : n / P = q ∧ n % P = r := (Nat.div_mod_unique hP).mpr ⟨by omega, h2⟩
  have e2 : n / P = q' ∧ n % P = r' := (Nat.div_mod_unique hP).mpr ⟨by omega, h4⟩
  omega

/-- If every slot before `k` carries the magic constant and slot `k` carries
a magic that is neither the constant nor all-ones, the scan aborts with the
corruption result for slot `k`. -/
theorem scan_corrupt (flash : Nat → Nat) (inc esz P k : Nat)
    (hv : ∀ j, j < k → slotMagic flash inc j = BOOTCOUNT_MAGIC)
    (hm1 : slotMagic flash inc k ≠ BOOTCOUNT_MAGIC)
    (hm2 : slotMagic flash inc k ≠ ERASED_MAGIC) :
    ∀ fuel i s, i ≤ k → k < i + fuel →
      scanAux flash inc esz P fuel i s = ScanResult.corrupt (k * inc) := by
  intro fuel
  induction fuel with
  | zero => intro i s h1 h2; omega
  | succ n ih =>
    intro i s h1 h2
    simp only [scanAux]
    rw [preadSlot_magic]
    by_cases hik : i = k
    · subst hik
      rw [if_pos ⟨hm1, hm2⟩]
    · have hlt : i < k := by omega
      have hm := hv i hlt
      unfold slotMagic at hm
      rw [hm]
      rw [if_neg (by intro h; exact h.1 rfl)]
      rw [if_neg magic_ne_erased]
      exact ih (i + 1) _ (by omega) (by omega)

/-- If every one of the `num_bc` slots carries the magic constant, the scan
runs to completion and its final `last_count` is the count of the last
slot. -/
theorem scan_full (flash : Nat → Nat) (inc esz P num_bc : Nat)
    (hv : ∀ j, j < num_bc → slotMagic flash inc j = BOOTCOUNT_MAGIC) :
    ∀ fuel i s, i + fuel = num_bc →
      s.last_count = (if i = 0 then 0 else slotCount flash inc (i - 1)) →
      ∃ s', scanAux flash inc esz P fuel i s = ScanResult.stopped num_bc s' ∧
        s'.last_count = (if num_bc = 0 then 0 else slotCount flash inc (num_bc - 1)) := by
  intro fuel
  induction fuel with
  | zero =>
    intro i s h1 h2
    have hi : i = num_bc := by omega
    subst hi
    exact ⟨s, rfl, h2⟩
  | succ n ih =>
    intro i s h1 h2
    have hlt : i < num_bc := by omega
    simp only [scanAux]
    rw [preadSlot_magic]
    have hm := hv i hlt
    unfold slotMagic at hm
    rw [hm]
    rw [if_neg (by intro h; exact h.1 rfl)]
    rw [if_neg magic_ne_erased]
    apply ih (i + 1) _ (by omega)
    show readU32 (preadSlot flash s.buf inc s.page_len i) (s.page_len * inc + 4) = _
    rw [preadSlot_count]
    simp only [Nat.add_sub_cancel]
    rw [if_neg (by omega)]
    rfl

/-- If slots `0 .. k-1` carry the magic constant and slot `k` carries the
all-ones magic, the scan stops at slot `k`.  The stopped state is
characterized completely: `curr` points at slot position `rk = k mod P`
of the page, `page_len` and `erase_start` already reflect the increment
(and possible wrap) of iteration `k`, `last_count` is the count of slot
`k - 1`, page positions whose offset inside their slot is `≥ 12` still
hold the initial (malloc) contents, and the first 12 bytes of each page
slot `j < rk` hold the record bytes of flash slot `P * qk + j`. -/
theorem scan_stop_free (flash : Nat → Nat) (inc esz P k qk rk : Nat)
    (h12 : 12 ≤ inc) (hP : 0 < P) (hqr : P * qk + rk = k) (hrk : rk < P)
    (hv : ∀ j, j < k → slotMagic flash inc j = BOOTCOUNT_MAGIC)
    (hf : slotMagic flash inc k = ERASED_MAGIC) :
    ∀ fuel i q r s, P * q + r = i → r < P →
      s.page_len = r → s.erase_start = q * esz →
      s.last_count = (if i = 0 then 0 else slotCount flash inc (i - 1)) →
      (∀ j t, j < r → t < 12 → s.buf (j * inc + t) = flash ((P * q + j) * inc + t)) →
      i ≤ k → k < i + fuel →
      ∃ s', scanAux flash inc esz P fuel i s = ScanResult.stopped k s' ∧
        s'.curr_slot = rk ∧
        s'.page_len = (if rk + 1 ≥ P then 0 else rk + 1) ∧
        s'.erase_start = (if rk + 1 ≥ P then (qk + 1) * esz else qk * esz) ∧
        s'.last_count = (if k = 0 then 0 else slotCount flash inc (k - 1)) ∧
        (∀ b, 12 ≤ b % inc → s'.buf b = s.buf b) ∧
        (∀ j t, j < rk → t < 12 → s'.buf (j * inc + t) = flash ((P * qk + j) * inc + t)) := by
  intro fuel
  induction fuel with
  | zero => intro i q r s hi hr hpl hes hlc hbuf h1 h2; omega
  | succ n ih =>
    intro i q r s hi hr hpl hes hlc hbuf h1 h2
    simp only [scanAux]
    rw [hpl, hes, preadSlot_magic]
    have hpad : ∀ b, 12 ≤ b % inc → preadSlot flash s.buf inc r i b = s.buf b := by
      intro b hb
      apply preadSlot_out
      rcases Nat.lt_or_ge b (r * inc) with h | h
      · exact Or.inl h
      · right
        by_contra hcon
        push_neg at hcon
        have hmod : b % inc = b - r * inc := by
          have hx := slot_pos_mod r (b - r * inc) inc (by omega)
          rw [show r * inc + (b - r * inc) = b by omega] at hx
          exact hx
        omega
    by_cases hik : i = k
    · -- the free slot: magic is all-ones, the loop breaks
      subst hik
      have hq : q = qk ∧ r = rk := qr_unique P q r qk rk i hP hi hr hqr hrk
      obtain ⟨hq1, hq2⟩ := hq
      subst hq1; subst hq2
      unfold slotMagic at hf
      rw [hf]
      rw [if_neg (by intro h; exact h.2 rfl)]
      rw [if_pos rfl]
      refine ⟨_, rfl, rfl, rfl, ?_, hlc, hpad, ?_⟩
      · by_cases hw : q * esz + esz = (q + 1) * esz
        · simp only [ScanState.erase_start]
          rw [hw]
        · exfalso; apply hw; rw [Nat.succ_mul]
      · intro j t hj ht
        show preadSlot flash s.buf inc r i (j * inc + t) = _
        rw [preadSlot_out flash s.buf inc r i _
          (Or.inl (slot_pos_lt j r inc t hj (by omega)))]
        exact hbuf j t hj ht
    · -- a valid record: remember its count and continue
      have hlt : i < k := by omega
      have hm := hv i hlt
      unfold slotMagic at hm
      rw [hm]
      rw [if_neg (by intro h; exact h.1 rfl)]
      rw [if_neg magic_ne_erased]
      have hcnt : readU32 (preadSlot flash s.buf inc r i) (r * inc + 4) =
          slotCount flash inc i := preadSlot_count flash s.buf inc r i
      by_cases hw : r + 1 ≥ P
      · -- the page just filled a whole erase unit: wrap and advance
        have hrP : r + 1 = P := by omega
        rw [if_pos hw, if_pos hw]
        have := ih (i + 1) (q + 1) 0
          ⟨0, q * esz + esz, readU32 (preadSlot flash s.buf inc r i) (r * inc + 4), r,
            preadSlot flash s.buf inc r i⟩
          (by rw [Nat.mul_succ]; omega) hP rfl
          (by show q * esz + esz = (q + 1) * esz; rw [Nat.succ_mul])
          (by
            show readU32 (preadSlot flash s.buf inc r i) (r * inc + 4) = _
            rw [hcnt, if_neg (by omega)]
            simp only [Nat.add_sub_cancel])
          (by intro j t hj ht; omega)
          (by omega) (by omega)
        obtain ⟨s', e1, e2, e3, e4, e5, e6, e7⟩ := this
        refine ⟨s', e1, e2, e3, e4, e5, ?_, e7⟩
        intro b hb
        rw [e6 b hb]
        exact hpad b hb
      · -- still inside the same erase unit
        rw [if_neg hw, if_neg hw]
        have := ih (i + 1) q (r + 1)
          ⟨r + 1, q * esz, readU32 (preadSlot flash s.buf inc r i) (r * inc + 4), r,
            preadSlot flash s.buf inc r i⟩
          (by omega) (by omega) rfl rfl
          (by
            show readU32 (preadSlot flash s.buf inc r i) (r * inc + 4) = _
            rw [hcnt, if_neg (by omega)]
            simp only [Nat.add_sub_cancel])
          (by
            intro j t hj ht
            show preadSlot flash s.buf inc r i (j * inc + t) = _
            by_cases hjr : j = r
            · subst hjr
              rw [preadSlot_in flash s.buf inc j i t ht, hi]
            · have hjlt : j < r := by omega
              rw [preadSlot_out flash s.buf inc r i _
                (Or.inl (slot_pos_lt j r inc t hjlt (by omega)))]
              exact hbuf j t hjlt ht)
          (by omega) (by omega)
        obtain ⟨s', e1, e2, e3, e4, e5, e6, e7⟩ := this
        refine ⟨s', e1, e2, e3, e4, e5, ?_, e7⟩
        intro b hb
        rw [e6 b hb]
        exact hpad b hb

/-! ### Derived-layout facts -/

theorem inc_ge_16 (info : MtdInfo) : 16 ≤ bcOffsetIncrement info := by
  unfold bcOffsetIncrement; split <;> omega

theorem esz_ge_inc (info : MtdInfo) : bcOffsetIncrement info ≤ eraseSizeOf info := by
  unfold eraseSizeOf; split <;> omega

theorem pageNumBc_pos (info : MtdInfo) : 0 < pageNumBc info := by
  unfold pageNumBc
  have h1 := inc_ge_16 info
  have h2 := esz_ge_inc info
  exact (Nat.one_le_div_iff (by omega)).mpr h2

/-- Claim C5: the derived layout satisfies `stride = max(writeGranularity, 16)`,
`eraseUnit = max(eraseUnitSize, stride)` and
`recordsPerEraseUnit = eraseUnit / stride`; in particular a device reporting
write granularity 8 gets stride 16, not 8. -/
theorem layout_derivation (info : MtdInfo) :
    bcOffsetIncrement info = max info.writesize 16 ∧
    eraseSizeOf info = max info.erasesize (bcOffsetIncrement info) ∧
    pageNumBc info = eraseSizeOf info / bcOffsetIncrement info ∧
    bcOffsetIncrement { size := info.size, erasesize := info.erasesize, writesize := 8 } = 16 := by
  refine ⟨?_, ?_, rfl, by norm_num [bcOffsetIncrement]⟩
  · unfold bcOffsetIncrement
    rw [Nat.max_def]
    split <;> split <;> omega
  · unfold eraseSizeOf
    rw [Nat.max_def]
    split <;> split <;> omega

/-! ### Concrete flash images and devices used as witnesses and
counterexamples.  A boot-count record is stored little-endian:
`0x20110811` is the byte sequence `11 08 11 20`. -/

/-- One valid record with count 1 in slot 0 (stride 16), everything after it
erased.  Geometry 64/32/16: the first free slot (slot 1) is the LAST slot of
its erase block (`page_num_bc = 2`). -/
def flashC1 : Nat → Nat := fun b =>
  if b = 0 then 0x11 else if b = 1 then 0x08 else if b = 2 then 0x11 else if b = 3 then 0x20
  else if b = 4 then 1 else if b = 5 then 0 else if b = 6 then 0 else if b = 7 then 0
  else if b = 8 then 0x11 else if b = 9 then 0x08 else if b = 10 then 0x11 else if b = 11 then 0x20
  else 0xff

def D1 : Device := goodDevice ⟨64, 32, 16⟩ flashC1

/-- Claim C1 (failing input): on `D1` the first free slot (slot 1, the last
slot of erase block 0) receives no record at all: `mtd_resetbc` erases the
NEXT block (offset 32), issues a zero-length `pwrite`, and still returns 0,
leaving slot 1 erased and the stale count 1 in slot 0 — no slot of the
device holds a record with count 0. -/
theorem bug_reset_skips_record_at_block_end :
    (mtd_resetbc D1).retval = 0 ∧
    (mtd_resetbc D1).erases = [(32, 32)] ∧
    (mtd_resetbc D1).writes = [(32, 0)] ∧
    slotMagic (mtd_resetbc D1).flash 16 1 = ERASED_MAGIC ∧
    slotMagic (mtd_resetbc D1).flash 16 0 = BOOTCOUNT_MAGIC ∧
    slotCount (mtd_resetbc D1).flash 16 0 = 1 ∧
    (∀ i, i < 4 → ¬ (slotMagic (mtd_resetbc D1).flash 16 i = BOOTCOUNT_MAGIC ∧
      slotCount (mtd_resetbc D1).flash 16 i = 0)) := by
  decide

/-- A device whose `MEMGETINFO` ioctl fails. -/
def D9 : Device :=
  { getinfo := Option.none, flash := fun _ => 0xff, mallocOk := true,
    bufInit := fun _ => 0, eraseRet := fun _ _ => 0,
    pwriteRet := fun len => (len : Int) }

/-- Claim C9 (failing input): when the geometry query fails, `mtd_resetbc`
jumps to the cleanup label before `page` is ever assigned, and the cleanup's
`if (page)` test reads the uninitialized pointer. -/
theorem bug_page_read_uninitialized :
    (mtd_resetbc D9).retval = -1 ∧ (mtd_resetbc D9).pageReadUninit = true := by
  decide

/-! ### Claim theorems: the no-mutation paths -/

/-- Claim C2: on a valid log whose last written record has count 0 —
including the completely empty log — `mtd_resetbc` returns 0 and performs
no erase and no write: the flash is byte-for-byte unchanged.  `k` is the
slot where the scan stops (the first all-ones magic, or `num_bc` when
every slot is a valid record). -/
theorem reset_already_zero (d : Device) (info : MtdInfo) (k : Nat)
    (hinfo : d.getinfo = Option.some info) (hmal : d.mallocOk = true)
    (hk : k ≤ numBc info)
    (hv : ∀ j, j < k → slotMagic d.flash (bcOffsetIncrement info) j = BOOTCOUNT_MAGIC)
    (hstop : k = numBc info ∨ slotMagic d.flash (bcOffsetIncrement info) k = ERASED_MAGIC)
    (hzero : k = 0 ∨ slotCount d.flash (bcOffsetIncrement info) (k - 1) = 0) :
    (mtd_resetbc d).retval = 0 ∧ (mtd_resetbc d).flash = d.flash ∧
    (mtd_resetbc d).erases = [] ∧ (mtd_resetbc d).writes = [] ∧
    (mtd_resetbc d).syncs = 0 := by
  by_cases hkn : k = numBc info
  · subst hkn
    obtain ⟨s', hs, hlc⟩ := scan_full d.flash (bcOffsetIncrement info) (eraseSizeOf info)
      (pageNumBc info) (numBc info) hv (numBc info) 0 ⟨0, 0, 0, 0, d.bufInit⟩
      (by omega) (by simp)
    have hscan : scanOf d info = ScanResult.stopped (numBc info) s' := hs
    have hlc0 : s'.last_count = 0 := by
      rw [hlc]
      by_cases h0 : numBc info = 0
      · rw [if_pos h0]
      · rw [if_neg h0]
        rcases hzero with h | h
        · omega
        · exact h
    simp [mtd_resetbc, hinfo, hmal, hscan, hlc0]
  · have hklt : k < numBc info := by omega
    have hfree : slotMagic d.flash (bcOffsetIncrement info) k = ERASED_MAGIC := by
      rcases hstop with h | h
      · omega
      · exact h
    have hP := pageNumBc_pos info
    have h12 : 12 ≤ bcOffsetIncrement info := by have := inc_ge_16 info; omega
    have hdm := Nat.div_add_mod k (pageNumBc info)
    have hrm : k % pageNumBc info < pageNumBc info := Nat.mod_lt _ hP
    obtain ⟨s', hs, _, _, _, e4, _, _⟩ := scan_stop_free d.flash (bcOffsetIncrement info)
      (eraseSizeOf info) (pageNumBc info) k (k / pageNumBc info) (k % pageNumBc info)
      h12 hP hdm hrm hv hfree (numBc info) 0 0 0 ⟨0, 0, 0, 0, d.bufInit⟩
      (by omega) hP rfl (by simp) (by simp) (by intro j t hj ht; omega)
      (by omega) (by omega)
    have hscan : scanOf d info = ScanResult.stopped k s' := hs
    have hlc0 : s'.last_count = 0 := by
      rw [e4]
      by_cases h0 : k = 0
      · rw [if_pos h0]
      · rw [if_neg h0]
        rcases hzero with h | h
        · omega
        · exact h
    simp [mtd_resetbc, hinfo, hmal, hscan, hlc0]

/-- An empty (never-written) log: every byte erased. -/
def D2 : Device := goodDevice ⟨64, 32, 16⟩ (fun _ => 0xff)

/-- Witness for C2: the empty log is left untouched and the call succeeds. -/
theorem reset_already_zero_witness :
    (mtd_resetbc D2).retval = 0 ∧ (mtd_resetbc D2).flash = D2.flash ∧
    (mtd_resetbc D2).erases = [] ∧ (mtd_resetbc D2).writes = [] :=
  have h := reset_already_zero D2 ⟨64, 32, 16⟩ 0 rfl rfl (Nat.zero_le _)
    (fun j hj => absurd hj (by omega)) (Or.inr (by decide)) (Or.inl rfl)
  ⟨h.1, h.2.1, h.2.2.1, h.2.2.2.1⟩

/-- Claim C3: a slot with a magic neither the constant nor all-ones, with
only valid records before it, makes `mtd_resetbc` return -3 having issued
no erase and no write: the flash is byte-for-byte unchanged. -/
theorem reset_corrupt_magic_unchanged (d : Device) (info : MtdInfo) (k : Nat)
    (hinfo : d.getinfo = Option.some info) (hmal : d.mallocOk = true)
    (hk : k < numBc info)
    (hv : ∀ j, j < k → slotMagic d.flash (bcOffsetIncrement info) j = BOOTCOUNT_MAGIC)
    (hm1 : slotMagic d.flash (bcOffsetIncrement info) k ≠ BOOTCOUNT_MAGIC)
    (hm2 : slotMagic d.flash (bcOffsetIncrement info) k ≠ ERASED_MAGIC) :
    (mtd_resetbc d).retval = -3 ∧ (mtd_resetbc d).flash = d.flash ∧
    (mtd_resetbc d).erases = [] ∧ (mtd_resetbc d).writes = [] ∧
    (mtd_resetbc d).syncs = 0 := by
  have hscan : scanOf d info = ScanResult.corrupt (k * bcOffsetIncrement info) :=
    scan_corrupt d.flash (bcOffsetIncrement info) (eraseSizeOf info) (pageNumBc info) k
      hv hm1 hm2 (numBc info) 0 ⟨0, 0, 0, 0, d.bufInit⟩ (by omega) (by omega)
  simp [mtd_resetbc, hinfo, hmal, hscan]

/-- A log whose slot 0 magic is the ASCII bytes `0xdeadbeef` (little-endian),
neither the boot-count constant nor all-ones. -/
def D3 : Device := goodDevice ⟨64, 32, 16⟩ (fun b =>
  if b = 0 then 0xef else if b = 1 then 0xbe else if b = 2 then 0xad else if b = 3 then 0xde
  else 0xff)

/-- Witness for C3: the corrupted log aborts with -3 and no mutation. -/
theorem reset_corrupt_magic_unchanged_witness :
    (mtd_resetbc D3).retval = -3 ∧ (mtd_resetbc D3).flash = D3.flash ∧
    (mtd_resetbc D3).erases = [] ∧ (mtd_resetbc D3).writes = [] :=
  have h := reset_corrupt_magic_unchanged D3 ⟨64, 32, 16⟩ 0 rfl rfl (by decide)
    (fun j hj => absurd hj (by omega)) (by decide) (by decide)
  ⟨h.1, h.2.1, h.2.2.1, h.2.2.2.1⟩

/-! ### Claim theorems: the full-log path -/

/-- Claim C4: when every slot holds a valid written record and the last
count is nonzero, `mtd_resetbc` issues exactly one whole-device erase
(offset 0, length `size`) and exactly one write of a single record
(`bc_offset_increment` bytes) at offset 0, and returns 0 after syncing. -/
theorem reset_full_log_whole_device (d : Device) (info : MtdInfo)
    (hinfo : d.getinfo = Option.some info) (hmal : d.mallocOk = true)
    (hn : 0 < numBc info)
    (hv : ∀ j, j < numBc info → slotMagic d.flash (bcOffsetIncrement info) j = BOOTCOUNT_MAGIC)
    (hc : slotCount d.flash (bcOffsetIncrement info) (numBc info - 1) ≠ 0)
    (he : 0 ≤ d.eraseRet 0 info.size)
    (hw : 0 ≤ d.pwriteRet (bcOffsetIncrement info)) :
    (mtd_resetbc d).erases = [(0, info.size)] ∧
    (mtd_resetbc d).writes = [(0, bcOffsetIncrement info)] ∧
    (mtd_resetbc d).retval = 0 ∧ (mtd_resetbc d).syncs = 1 := by
  obtain ⟨s', hs, hlc⟩ := scan_full d.flash (bcOffsetIncrement info) (eraseSizeOf info)
    (pageNumBc info) (numBc info) hv (numBc info) 0 ⟨0, 0, 0, 0, d.bufInit⟩
    (by omega) (by simp)
  have hscan : scanOf d info = ScanResult.stopped (numBc info) s' := hs
  have hlcne : ¬ (s'.last_count = 0) := by
    rw [hlc, if_neg (by omega)]
    exact hc
  have hene : ¬ (d.eraseRet 0 info.size < 0) := by omega
  have hwne : ¬ (d.pwriteRet (bcOffsetIncrement info) < 0) := by omega
  simp [mtd_resetbc, writePhase, hinfo, hmal, hscan, hlcne, hene, hwne]

/-- The byte at in-slot offset `t` of a valid record with the given count. -/
def recByte (count t : Nat) : Nat :=
  if t = 0 then 0x11 else if t = 1 then 0x08 else if t = 2 then 0x11 else if t = 3 then 0x20
  else if t = 4 then count % 256 else if t = 5 then count / 256 % 256
  else if t = 6 then count / 65536 % 256 else if t = 7 then count / 16777216 % 256
  else if t = 8 then 0x11 else if t = 9 then 0x08 else if t = 10 then 0x11 else if t = 11 then 0x20
  else 0xff

/-- A completely full log: slots 0..3 hold records with counts 1..4. -/
def flashC4 : Nat → Nat := fun b => if b < 64 then recByte (b / 16 + 1) (b % 16) else 0xff

def D4 : Device := goodDevice ⟨64, 32, 16⟩ flashC4

/-- Witness for C4 on a concrete full log. -/
theorem reset_full_log_whole_device_witness :
    (mtd_resetbc D4).erases = [(0, 64)] ∧ (mtd_resetbc D4).writes = [(0, 16)] ∧
    (mtd_resetbc D4).retval = 0 ∧ (mtd_resetbc D4).syncs = 1 :=
  reset_full_log_whole_device D4 ⟨64, 32, 16⟩ rfl rfl (by decide) (by decide) (by decide)
    (by decide) (by decide)

/-! ### Claim theorems: write failure handling -/

/-- Claim C10: `-6` is returned exactly when the `pwrite` call reports a
negative result; a non-negative result — even a short write transferring
fewer bytes than requested — still leads to the `sync()` and `retval = 0`.
Runs that never reach the `pwrite` never return `-6`. -/
theorem write_failure_iff_negative (d : Device) :
    ((mtd_resetbc d).writes = [] → (mtd_resetbc d).retval ≠ -6) ∧
    (∀ off len, (mtd_resetbc d).writes = [(off, len)] →
      (((mtd_resetbc d).retval = -6 ↔ d.pwriteRet len < 0) ∧
       (0 ≤ d.pwriteRet len → (mtd_resetbc d).retval = 0 ∧ (mtd_resetbc d).syncs = 1))) := by
  rcases hg : d.getinfo with _ | info
  · simp [mtd_resetbc, hg]
  · rcases hm : d.mallocOk
    · simp [mtd_resetbc, hg, hm]
    · rcases hs : scanOf d info with off | ⟨i, s⟩
      · simp [mtd_resetbc, hg, hm, hs]
      · by_cases hlc : s.last_count = 0
        · simp [mtd_resetbc, hg, hm, hs, hlc]
        · by_cases hi : i = numBc info
          · by_cases he : d.eraseRet 0 info.size < 0
            · simp [mtd_resetbc, hg, hm, hs, hlc, hi, he]
            · by_cases hw : d.pwriteRet (bcOffsetIncrement info) < 0
              · simp [mtd_resetbc, writePhase, hg, hm, hs, hlc, hi, he, hw, one_mul]
              · simp [mtd_resetbc, writePhase, hg, hm, hs, hlc, hi, he, hw, one_mul]
                omega
          · by_cases he : d.eraseRet s.erase_start (eraseSizeOf info) < 0
            · simp [mtd_resetbc, hg, hm, hs, hlc, hi, he]
            · by_cases hw : d.pwriteRet (s.page_len * bcOffsetIncrement info) < 0
              · simp [mtd_resetbc, writePhase, hg, hm, hs, hlc, hi, he, hw]
              · simp [mtd_resetbc, writePhase, hg, hm, hs, hlc, hi, he, hw]
                omega

/-- A log with two records (counts 1, 2) then free slots, on a device whose
`pwrite` always reports 0 bytes transferred (a short write). -/
def D10 : Device :=
  { getinfo := Option.some ⟨64, 32, 16⟩, flash := fun b => if b < 32 then flashC4 b else 0xff,
    mallocOk := true, bufInit := fun _ => 0, eraseRet := fun _ _ => 0,
    pwriteRet := fun _ => 0 }

/-- Witness for C10: a short write (0 of 16 bytes transferred, non-negative
return) still syncs and returns 0. -/
theorem write_failure_iff_negative_witness :
    0 ≤ D10.pwriteRet 16 ∧ (mtd_resetbc D10).writes = [(32, 16)] ∧
    (mtd_resetbc D10).retval = 0 ∧ (mtd_resetbc D10).syncs = 1 :=
  have h := (write_failure_iff_negative D10).2 32 16 (by decide)
  ⟨by decide, by decide, (h.2 (by decide)).1, (h.2 (by decide)).2⟩

/-! ### Claim theorems: result codes -/

/-- Claim C8: `mtd_resetbc` returns exactly one of the seven codes
`0, -1, ..., -6`, and each nonzero code characterizes its failure class:
`-1` a failed geometry ioctl, `-2` a failed allocation, `-3` a corrupt
magic, `-4` a failed whole-device erase, `-5` a failed single-block erase,
`-6` a failed write (after the erase of the taken branch succeeded). -/
theorem resetbc_result_codes (d : Device) :
    ((mtd_resetbc d).retval = 0 ∨ (mtd_resetbc d).retval = -1 ∨ (mtd_resetbc d).retval = -2 ∨
     (mtd_resetbc d).retval = -3 ∨ (mtd_resetbc d).retval = -4 ∨ (mtd_resetbc d).retval = -5 ∨
     (mtd_resetbc d).retval = -6) ∧
    ((mtd_resetbc d).retval = -1 ↔ d.getinfo = Option.none) ∧
    ((mtd_resetbc d).retval = -2 ↔ (∃ info, d.getinfo = Option.some info) ∧
      d.mallocOk = false) ∧
    ((mtd_resetbc d).retval = -3 ↔ ∃ info off, d.getinfo = Option.some info ∧
      d.mallocOk = true ∧ scanOf d info = ScanResult.corrupt off) ∧
    ((mtd_resetbc d).retval = -4 ↔ ∃ info i s, d.getinfo = Option.some info ∧
      d.mallocOk = true ∧ scanOf d info = ScanResult.stopped i s ∧ s.last_count ≠ 0 ∧
      i = numBc info ∧ d.eraseRet 0 info.size < 0) ∧
    ((mtd_resetbc d).retval = -5 ↔ ∃ info i s, d.getinfo = Option.some info ∧
      d.mallocOk = true ∧ scanOf d info = ScanResult.stopped i s ∧ s.last_count ≠ 0 ∧
      i ≠ numBc info ∧ d.eraseRet s.erase_start (eraseSizeOf info) < 0) ∧
    ((mtd_resetbc d).retval = -6 ↔ ∃ info i s, d.getinfo = Option.some info ∧
      d.mallocOk = true ∧ scanOf d info = ScanResult.stopped i s ∧ s.last_count ≠ 0 ∧
      ((i = numBc info ∧ 0 ≤ d.eraseRet 0 info.size ∧
        d.pwriteRet (bcOffsetIncrement info) < 0) ∨
       (i ≠ numBc info ∧ 0 ≤ d.eraseRet s.erase_start (eraseSizeOf info) ∧
        d.pwriteRet (s.page_len * bcOffsetIncrement info) < 0))) := by
  rcases hg : d.getinfo with _ | info
  · simp [mtd_resetbc, hg]
  · rcases hm : d.mallocOk
    · simp [mtd_resetbc, hg, hm]
    · rcases hs : scanOf d info with off | ⟨i, s⟩
      · simp [mtd_resetbc, hg, hm, hs]
      · by_cases hlc : s.last_count = 0
        · simp [mtd_resetbc, hg, hm, hs, hlc]
        · by_cases hi : i = numBc info
          · by_cases he : d.eraseRet 0 info.size < 0
            · have he' : ¬ (0 ≤ d.eraseRet 0 info.size) := by omega
              simp [mtd_resetbc, hg, hm, hs, hlc, hi, he, he']
              exact ⟨numBc info, s, ⟨rfl, rfl⟩, hlc, rfl⟩
            · by_cases hw : d.pwriteRet (bcOffsetIncrement info) < 0
              · simp [mtd_resetbc, writePhase, hg, hm, hs, hlc, hi, he, hw, one_mul]
                exact ⟨numBc info, s, ⟨rfl, rfl⟩, hlc, Or.inl ⟨rfl, by omega⟩⟩
              · simp [mtd_resetbc, writePhase, hg, hm, hs, hlc, hi, he, hw, one_mul]
          · by_cases he : d.eraseRet s.erase_start (eraseSizeOf info) < 0
            · have he' : ¬ (0 ≤ d.eraseRet s.erase_start (eraseSizeOf info)) := by omega
              simp [mtd_resetbc, hg, hm, hs, hlc, hi, he, he']
              exact ⟨i, s, ⟨rfl, rfl⟩, hlc, hi, he⟩
            · by_cases hw : d.pwriteRet (s.page_len * bcOffsetIncrement info) < 0
              · simp [mtd_resetbc, writePhase, hg, hm, hs, hlc, hi, he, hw]
                exact ⟨by omega, i, s, ⟨rfl, rfl⟩, hlc, Or.inr ⟨hi, by omega, hw⟩⟩
              · simp [mtd_resetbc, writePhase, hg, hm, hs, hlc, hi, he, hw]
                omega

/-! ### Claim theorems: slot classification (C7) -/

/-- Slot 0 has an all-ones magic field but a non-erased byte (0x42) in its
count field, so the slot is NOT equal to the erased-fill pattern. -/
def flashC7 : Nat → Nat := fun b => if b = 4 then 0x42 else 0xff

def D7 : Device := goodDevice ⟨64, 32, 16⟩ flashC7

/-- Claim C7 counterexample: the scan stops at slot 0 — classifying it as
unwritten/erased — although the slot's content is not the erased-fill
pattern (byte 4 is 0x42, not 0xff); the whole run then treats the log as
already reset.  Classification follows the 4-byte magic field, not the
whole-slot rule the claim states. -/
theorem erased_classification_cex :
    (scanOf D7 ⟨64, 32, 16⟩).stopIndex = Option.some 0 ∧
    D7.flash 4 = 0x42 ∧
    (mtd_resetbc D7).retval = 0 ∧ (mtd_resetbc D7).erases = [] ∧
    (mtd_resetbc D7).writes = [] := by
  decide

/-- Claim C7 amended: the scan classifies a slot by its 4-byte magic field
alone and ignores the slot's remaining bytes: with a valid prefix it stops
at slot `k` whenever slot `k`'s magic field is all-ones (no matter what the
other bytes hold), and aborts as corrupt whenever slot `k`'s magic field is
neither the constant nor all-ones. -/
theorem scan_classifies_by_magic_field (flash bufInit : Nat → Nat)
    (inc esz P num_bc k : Nat) (h12 : 12 ≤ inc) (hP : 0 < P) (hk : k < num_bc)
    (hv : ∀ j, j < k → slotMagic flash inc j = BOOTCOUNT_MAGIC) :
    (slotMagic flash inc k = ERASED_MAGIC →
      (scanAux flash inc esz P num_bc 0 ⟨0, 0, 0, 0, bufInit⟩).stopIndex = Option.some k) ∧
    (slotMagic flash inc k ≠ BOOTCOUNT_MAGIC → slotMagic flash inc k ≠ ERASED_MAGIC →
      scanAux flash inc esz P num_bc 0 ⟨0, 0, 0, 0, bufInit⟩ =
        ScanResult.corrupt (k * inc)) := by
  constructor
  · intro hf
    obtain ⟨s', hs, _, _, _, _, _, _⟩ := scan_stop_free flash inc esz P k (k / P) (k % P)
      h12 hP (Nat.div_add_mod k P) (Nat.mod_lt _ hP) hv hf num_bc 0 0 0
      ⟨0, 0, 0, 0, bufInit⟩ (by omega) hP rfl (by simp) (by simp)
      (by intro j t hj ht; omega) (by omega) (by omega)
    rw [hs]
    rfl
  · intro h1 h2
    exact scan_corrupt flash inc esz P k hv h1 h2 num_bc 0 _ (by omega) (by omega)

/-- Witness for the amended C7, on the very slot of the counterexample
device: magic field all-ones, count byte 0x42, still classified erased. -/
theorem scan_classifies_by_magic_field_witness :
    (scanAux flashC7 16 32 2 4 0 ⟨0, 0, 0, 0, fun _ => 0⟩).stopIndex = Option.some 0 :=
  (scan_classifies_by_magic_field flashC7 (fun _ => 0) 16 32 2 4 0 (by omega) (by omega)
    (by omega) (fun j hj => absurd hj (by omega))).1 (by decide)

/-! ### Claim theorems: scan read size and write-back preservation (C6) -/

/-- Geometry 96/48/16 gives three slots per erase unit.  Slot 0 is a valid
record with count 1 whose padding byte at offset 12 is 0xAB (a flash byte
beyond the 12-byte record inside the 16-byte slot); slot 1 is the first
free slot; everything after is erased. -/
def flashC6 : Nat → Nat := fun b =>
  if b = 0 then 0x11 else if b = 1 then 0x08 else if b = 2 then 0x11 else if b = 3 then 0x20
  else if b = 4 then 1 else if b = 5 then 0 else if b = 6 then 0 else if b = 7 then 0
  else if b = 8 then 0x11 else if b = 9 then 0x08 else if b = 10 then 0x11 else if b = 11 then 0x20
  else if b = 12 then 0xAB
  else 0xff

def D6 : Device := goodDevice ⟨96, 48, 16⟩ flashC6

/-- Claim C6 counterexample: the scan does NOT read `stride` bytes per slot
(it preads only the 12 record bytes), so the write-back does not rewrite
the preceding valid record's slot verbatim: byte 12 of slot 0 — inside the
rewritten block, ahead of the reset slot — was 0xAB on flash and is 0
(the scratch page's initial contents) after a successful reset. -/
theorem scan_reads_record_not_stride_cex :
    (mtd_resetbc D6).retval = 0 ∧
    (mtd_resetbc D6).erases = [(0, 48)] ∧
    (mtd_resetbc D6).writes = [(0, 32)] ∧
    slotMagic D6.flash 16 0 = BOOTCOUNT_MAGIC ∧
    D6.flash 12 = 0xAB ∧
    (mtd_resetbc D6).flash 12 = 0 := by
  decide

/-- Claim C6 amended: each visited slot `i` contributes only its 12 record
bytes, preaded from offset `i * stride` into page slot `i mod
recordsPerEraseUnit`; consequently, after a reset that erases block `q`
and stops at slot `k = P * q + r` (not the last slot of the block), the
write-back restores the 12 record bytes of every preceding slot of the
block verbatim, fills their remaining `stride - 12` bytes from the scratch
page's initial (malloc) contents, and lays down the fresh zero record at
slot `k`. -/
theorem scan_read_and_preserve_amended (d : Device) (info : MtdInfo) (k q r : Nat)
    (hinfo : d.getinfo = Option.some info) (hmal : d.mallocOk = true)
    (hesz : eraseSizeOf info = pageNumBc info * bcOffsetIncrement info)
    (hqr : pageNumBc info * q + r = k) (hr1 : r + 1 < pageNumBc info)
    (hk0 : 0 < k) (hk : k < numBc info)
    (hv : ∀ j, j < k → slotMagic d.flash (bcOffsetIncrement info) j = BOOTCOUNT_MAGIC)
    (hf : slotMagic d.flash (bcOffsetIncrement info) k = ERASED_MAGIC)
    (hc : slotCount d.flash (bcOffsetIncrement info) (k - 1) ≠ 0)
    (he : 0 ≤ d.eraseRet (q * eraseSizeOf info) (eraseSizeOf info))
    (hw : d.pwriteRet ((r + 1) * bcOffsetIncrement info) =
      (((r + 1) * bcOffsetIncrement info : Nat) : Int)) :
    (mtd_resetbc d).retval = 0 ∧
    (mtd_resetbc d).erases = [(q * eraseSizeOf info, eraseSizeOf info)] ∧
    (mtd_resetbc d).writes = [(q * eraseSizeOf info, (r + 1) * bcOffsetIncrement info)] ∧
    (∀ j t, j < r → t < 12 →
      (mtd_resetbc d).flash ((pageNumBc info * q + j) * bcOffsetIncrement info + t) =
        d.flash ((pageNumBc info * q + j) * bcOffsetIncrement info + t)) ∧
    (∀ j t, j < r → 12 ≤ t → t < bcOffsetIncrement info →
      (mtd_resetbc d).flash ((pageNumBc info * q + j) * bcOffsetIncrement info + t) =
        d.bufInit (j * bcOffsetIncrement info + t)) ∧
    slotMagic (mtd_resetbc d).flash (bcOffsetIncrement info) k = BOOTCOUNT_MAGIC ∧
    slotCount (mtd_resetbc d).flash (bcOffsetIncrement info) k = 0 := by
  have hP : 0 < pageNumBc info := pageNumBc_pos info
  have h12 : 12 ≤ bcOffsetIncrement info := by have := inc_ge_16 info; omega
  have hrP : r < pageNumBc info := by omega
  obtain ⟨s', hs, e1, e2, e3, e4, e5, e6⟩ := scan_stop_free d.flash (bcOffsetIncrement info)
    (eraseSizeOf info) (pageNumBc info) k q r h12 hP hqr hrP hv hf
    (numBc info) 0 0 0 ⟨0, 0, 0, 0, d.bufInit⟩
    (by omega) hP rfl (by simp) (by simp) (by intro j t hj ht; omega) (by omega) (by omega)
  have hscan : scanOf d info = ScanResult.stopped k s' := hs
  have hpl : s'.page_len = r + 1 := by rw [e2, if_neg (by omega)]
  have hes' : s'.erase_start = q * eraseSizeOf info := by rw [e3, if_neg (by omega)]
  have hlcne : ¬ (s'.last_count = 0) := by
    rw [e4, if_neg (by omega)]
    exact hc
  have hine : k ≠ numBc info := by omega
  have hene : ¬ (d.eraseRet s'.erase_start (eraseSizeOf info) < 0) := by rw [hes']; omega
  have hrun : mtd_resetbc d = writePhase d info
      (eraseBytes d.flash (q * eraseSizeOf info) (eraseSizeOf info))
      [(q * eraseSizeOf info, eraseSizeOf info)] s'.buf r (r + 1)
      (q * eraseSizeOf info) := by
    simp only [mtd_resetbc, hinfo, hmal, if_true, hscan, if_neg hlcne, if_neg hine,
      if_neg hene, hes', e1, hpl]
    rw [if_neg (show ¬ (d.eraseRet (q * eraseSizeOf info) (eraseSizeOf info) < 0) from
      by omega)]
  have hwcond : ¬ ((((r + 1) * bcOffsetIncrement info : Nat) : Int) < 0) := by omega
  have haddr : ∀ j t, (pageNumBc info * q + j) * bcOffsetIncrement info + t =
      q * eraseSizeOf info + (j * bcOffsetIncrement info + t) := by
    intro j t
    rw [hesz]
    ring
  have hkaddr : k * bcOffsetIncrement info =
      q * eraseSizeOf info + r * bcOffsetIncrement info := by
    rw [hesz, ← hqr]
    ring
  have hsucc : (r + 1) * bcOffsetIncrement info =
      r * bcOffsetIncrement info + bcOffsetIncrement info := Nat.succ_mul r _
  rw [hrun]
  simp only [writePhase, hw, if_neg hwcond, Int.toNat_natCast, Nat.min_self]
  refine ⟨trivial, trivial, trivial, ?_, ?_, ?_, ?_⟩
  · intro j t hj ht
    have e6j := e6 j t hj ht
    rw [haddr j t] at e6j
    rw [haddr j t,
      writeBytes_in _ _ _ _ _ (by have := slot_pos_lt j r (bcOffsetIncrement info) t hj (by omega); omega),
      mkRecord_lt _ _ _ _ (slot_pos_lt j r (bcOffsetIncrement info) t hj (by omega))]
    exact e6j
  · intro j t hj ht12 htinc
    rw [haddr j t,
      writeBytes_in _ _ _ _ _ (by have := slot_pos_lt j r (bcOffsetIncrement info) t hj htinc; omega),
      mkRecord_lt _ _ _ _ (slot_pos_lt j r (bcOffsetIncrement info) t hj htinc)]
    exact e5 _ (by rw [slot_pos_mod j t _ htinc]; omega)
  · unfold slotMagic
    rw [hkaddr]
    have hstep : readU32 (writeBytes
        (eraseBytes d.flash (q * eraseSizeOf info) (eraseSizeOf info))
        (q * eraseSizeOf info) (mkRecord s'.buf (bcOffsetIncrement info) r)
        ((r + 1) * bcOffsetIncrement info))
        (q * eraseSizeOf info + r * bcOffsetIncrement info) =
        readU32 (mkRecord s'.buf (bcOffsetIncrement info) r)
          (r * bcOffsetIncrement info) := by
      apply readU32_eq_of
      intro u hu
      rw [show q * eraseSizeOf info + r * bcOffsetIncrement info + u =
        q * eraseSizeOf info + (r * bcOffsetIncrement info + u) by omega]
      rw [writeBytes_in _ _ _ _ _ (by omega)]
    rw [hstep, mkRecord_magic]
  · unfold slotCount
    rw [hkaddr]
    have hstep : readU32 (writeBytes
        (eraseBytes d.flash (q * eraseSizeOf info) (eraseSizeOf info))
        (q * eraseSizeOf info) (mkRecord s'.buf (bcOffsetIncrement info) r)
        ((r + 1) * bcOffsetIncrement info))
        (q * eraseSizeOf info + r * bcOffsetIncrement info + 4) =
        readU32 (mkRecord s'.buf (bcOffsetIncrement info) r)
          (r * bcOffsetIncrement info + 4) := by
      apply readU32_eq_of
      intro u hu
      rw [show q * eraseSizeOf info + r * bcOffsetIncrement info + 4 + u =
        q * eraseSizeOf info + (r * bcOffsetIncrement info + (4 + u)) by omega]
      rw [writeBytes_in _ _ _ _ _ (by omega)]
      rw [show r * bcOffsetIncrement info + (4 + u) =
        r * bcOffsetIncrement info + 4 + u by omega]
    rw [hstep, mkRecord_count]

/-- Witness for the amended C6 on the counterexample device: resetting `D6`
succeeds, writes the zero record into slot 1, keeps slot 0's 12 record
bytes, and fills slot 0's padding byte 12 from the scratch page's initial
contents. -/
theorem scan_read_and_preserve_amended_witness :
    (mtd_resetbc D6).retval = 0 ∧
    slotMagic (mtd_resetbc D6).flash 16 1 = BOOTCOUNT_MAGIC ∧
    slotCount (mtd_resetbc D6).flash 16 1 = 0 ∧
    (mtd_resetbc D6).flash 12 = D6.bufInit 12 :=
  have h := scan_read_and_preserve_amended D6 ⟨96, 48, 16⟩ 1 0 1 rfl rfl (by decide)
    (by decide) (by decide) (by decide) (by decide) (by decide) (by decide) (by decide)
    (by decide) (by decide)
  ⟨h.1, h.2.2.2.2.2.1, h.2.2.2.2.2.2, h.2.2.2.2.1 0 12 (by decide) (by decide) (by decide)⟩
